import Mathlib

/-!
Shallow embedding of the prefix-list reconciliation engine in `cf-lambda.py`
(Cloudflare → AWS managed prefix list updater), together with proofs about
the claims of the specification.

Modelling conventions:
* Python dictionaries coming back from the provider are modelled as
  structures with `Option` fields (`none` models both an absent key and an
  explicit null, exactly as `dict.get` does).
* Python truthiness on `or`-defaults is modelled by explicit functions
  (`pyNatOr`, `pyStr`): `int(x or d)` maps `None` and `0` to `d`.
* Python `set` values are modelled as `Finset String`; `sorted(...)` is
  `Finset.sort (· ≤ ·)` (String carries a linear order).
* The network provider is modelled as an oracle: `oracle k` is the outcome
  of the `k`-th `modify_managed_prefix_list` call issued by one
  `apply_delta` run, and `refetch k` is the `Version` field of the record
  returned by the `_describe_pl_with_retries` refetch performed after the
  failed call number `k` (an `Option Nat`, since the field may be missing).
* Every provider interaction of `apply_delta` is recorded in a trace of
  `ProvCall` events so that claims about which calls are (not) issued can
  be stated and proved.
-/

namespace CfLambda

/-- The constant `MAX_BATCH` of the source: provider call-size limit. -/
def MAX_BATCH : Nat := 80

/-- The constant `PL_DESCR_TRUNC` of the source: description truncation. -/
def PL_DESCR_TRUNC : Nat := 100

/-- The constant `DESCR_DEFAULT` of the source. -/
def DESCR_DEFAULT : String := "Cloudflare IP"

/-- Python `int(x or d)` on an optional integer field: both a missing
value and an explicit `0` fall back to the default `d`. -/
def pyNatOr (o : Option Nat) (d : Nat) : Nat :=
  match o with
  | none => d
  | some v => if v = 0 then d else v

/-- Python `x or ""` on an optional string field. -/
def pyStr (o : Option String) : String :=
  match o with
  | none => ""
  | some s => s

/-- Python `desc or default` on strings: the empty string is falsy. -/
def pyStrOr (s d : String) : String :=
  if s = "" then d else s

/-- A prefix-list record as the discovery APIs return it, with the seven
keys the code reads (`PrefixListId`, `PrefixListName`, `MaxEntries`,
`OwnerId`, `Version`, `State`, `PrefixListArn`).  `cidrs` models the extra
`Cidrs` data that only the legacy `describe_prefix_lists` shape carries;
the normalization in `_list_all_pls` drops it. -/
structure PLRecord where
  prefixListId : Option String
  prefixListName : Option String
  maxEntries : Option Nat
  ownerId : Option String
  version : Option Nat
  state : Option String
  prefixListArn : Option String
  cidrs : List String
deriving DecidableEq

/-- A response of either describe API: it may carry its records under the
`ManagedPrefixLists` key or under the `PrefixLists` key. -/
structure DescribeResp where
  managedPrefixLists : Option (List PLRecord)
  prefixLists : Option (List PLRecord)
deriving DecidableEq

/-- A `botocore` `ClientError`, reduced to the message the code inspects. -/
structure ClientErr where
  msg : String
deriving DecidableEq

/-- `_pls`: `resp.get("ManagedPrefixLists") or resp.get("PrefixLists") or []`.
Note the Python `or` chain: a present-but-empty first list is falsy and
falls through to the second key. -/
def plsOf (r : DescribeResp) : List PLRecord :=
  match r.managedPrefixLists with
  | some (x :: xs) => x :: xs
  | _ =>
    match r.prefixLists with
    | some (y :: ys) => y :: ys
    | _ => []

/-- `_describe_managed_pls`: the underlying API call either returns a
response or raises `ClientError`; the `except ClientError` arm returns
`{"ManagedPrefixLists": []}`. -/
def describe_managed_pls (call : Except ClientErr DescribeResp) : DescribeResp :=
  match call with
  | .ok r => r
  | .error _ => ⟨some [], none⟩

/-- `_describe_prefix_pls`: as above, the `except ClientError` arm returns
`{"PrefixLists": []}`. -/
def describe_prefix_pls (call : Except ClientErr DescribeResp) : DescribeResp :=
  match call with
  | .ok r => r
  | .error _ => ⟨none, some []⟩

/-- `pid = pl.get("PrefixListId")` followed by the truthiness test
`if pid`: a missing id and an empty-string id are both rejected. -/
def pidOf (pl : PLRecord) : Option String :=
  match pl.prefixListId with
  | some s => if s = "" then none else some s
  | none => none

/-- The normalization applied to records of the second discovery API in
`_list_all_pls`: a fresh record holding exactly the seven common keys
(the extra `Cidrs` data of the legacy shape is dropped). -/
def normalizePl (p : PLRecord) : PLRecord :=
  { prefixListId := p.prefixListId
    prefixListName := p.prefixListName
    maxEntries := p.maxEntries
    ownerId := p.ownerId
    version := p.version
    state := p.state
    prefixListArn := p.prefixListArn
    cidrs := [] }

/-- One step of the merge loop of `_list_all_pls`: the accumulator is the
`seen` id set (as a list with membership semantics) and the `out` list;
a record with a truthy, unseen id is appended and its id marked seen. -/
def mergeStep (acc : List String × List PLRecord) (pl : PLRecord) :
    List String × List PLRecord :=
  match pidOf pl with
  | none => acc
  | some pid => if pid ∈ acc.1 then acc else (pid :: acc.1, acc.2 ++ [pl])

/-- `_list_all_pls`: the first loop folds the (page-concatenated) records
of `describe_managed_prefix_lists`, the second loop folds the records of
`describe_prefix_lists` after per-record normalization, sharing the same
`seen` set.  `pagesA` and `pagesB` are the successive page responses of
the two paginated APIs; each page is read through `_pls`. -/
def listAllPls (pagesA pagesB : List DescribeResp) : List PLRecord :=
  let s1 := ((pagesA.map plsOf).flatten).foldl mergeStep ([], [])
  let s2 := (((pagesB.map plsOf).flatten).map normalizePl).foldl mergeStep s1
  s2.2

/-- One entry record of `get_managed_prefix_list_entries`, reduced to the
only key the code reads (`Cidr`). -/
structure EntryRec where
  cidr : Option String
deriving DecidableEq

/-- The entry-accumulation loop of `get_pl_entries`: every truthy `Cidr`
of every page is added to the `have` set. -/
def collectCidrs (pages : List (List EntryRec)) : Finset String :=
  pages.foldl
    (fun acc page =>
      page.foldl
        (fun a e =>
          match e.cidr with
          | some c => if c = "" then a else insert c a
          | none => a)
        acc)
    ∅

/-- `get_pl_entries` on an already-located record `pl` and the pages the
provider returns for the entries pagination: produces
`(version, have, max_entries, owner)` with the defaulting of the source
(`int(pl.get("Version") or 1)`, `int(pl.get("MaxEntries") or 0)`,
`pl.get("OwnerId") or ""`). -/
def get_pl_entries (pl : PLRecord) (pages : List (List EntryRec)) :
    Nat × Finset String × Nat × String :=
  (pyNatOr pl.version 1, collectCidrs pages, pyNatOr pl.maxEntries 0,
    pyStr pl.ownerId)

/-- One element of `AddEntries`: `{"Cidr": c, "Description": d}`. -/
structure AddEntry where
  cidr : String
  description : String
deriving DecidableEq

/-- One element of `RemoveEntries`: `{"Cidr": c}`. -/
structure RemEntry where
  cidr : String
deriving DecidableEq

/-- The keyword arguments of one `modify_managed_prefix_list` call.
`none` in `addEntries` / `removeEntries` models the absence of the key
(the source only sets the key for a truthy, hence non-empty, batch). -/
structure ModifyCall where
  prefixListId : String
  addEntries : Option (List AddEntry)
  removeEntries : Option (List RemEntry)
  currentVersion : Nat
deriving DecidableEq

/-- Outcome of one provider `modify_managed_prefix_list` call: the new
version of the list, or a raised `ClientError` with message `msg`. -/
inductive ModifyOutcome
  | ok (newVersion : Nat)
  | err (msg : String)
deriving DecidableEq

/-- One provider interaction of `apply_delta`, recorded in a trace:
a page read of `get_managed_prefix_list_entries`, a
`modify_managed_prefix_list` call, or the `_describe_pl_with_retries`
refetch performed during version-conflict recovery. -/
inductive ProvCall
  | entriesPage (prefixListId : String) (pageIdx : Nat)
  | modify (c : ModifyCall)
  | refetchDescribe (prefixListId : String)
deriving DecidableEq

/-- Whether a provider call is a mutation. -/
def isModify : ProvCall → Bool
  | .modify _ => true
  | _ => false

/-- The mutation calls contained in a trace. -/
def modifies (tr : List ProvCall) : List ProvCall :=
  tr.filter isModify

/-- The read calls issued by the pagination loop of `get_pl_entries`:
one `get_managed_prefix_list_entries` call per page; the `while True`
loop runs at least once even when the provider has no pages. -/
def readCalls (pid : String) (pages : List (List EntryRec)) : List ProvCall :=
  (List.range (max 1 pages.length)).map fun i => .entriesPage pid i

/-- Substring test on character lists, used to model the Python `in`
operator on strings. -/
def listContainsSub (needle : List Char) : List Char → Bool
  | [] => needle.isEmpty
  | c :: t => needle.isPrefixOf (c :: t) || listContainsSub needle t

/-- Python `needle in hay` on strings. -/
def containsSub (hay needle : String) : Bool :=
  listContainsSub needle.data hay.data

/-- The version-conflict test of `_modify`:
`"CurrentVersion" in msg or "version" in msg.lower()`. -/
def isVersionConflict (msg : String) : Bool :=
  containsSub msg "CurrentVersion" || containsSub msg.toLower "version"

/-- The `if add_batch:` / `if rem_batch:` truthiness guard: the key is
present only for a non-empty batch. -/
def optBatch {β : Type} (b : Option (List β)) : Option (List β) :=
  match b with
  | some [] => none
  | x => x

/-- `_modify(add_batch, rem_batch, version_hint)`: issue the call; on a
`ClientError` recognized as a version conflict, refetch the version once
and retry the same batch with the refreshed token; a failure of that
single retry (or a non-conflict error) propagates.  `k` is the number of
modify calls issued so far (the oracle's clock); the function returns the
result, the trace of provider calls it made, and the new clock. -/
def pmodify (oracle : Nat → ModifyOutcome) (refetch : Nat → Option Nat)
    (pid : String) (addB : Option (List AddEntry)) (remB : Option (List RemEntry))
    (vhint : Nat) (k : Nat) : Except String Nat × List ProvCall × Nat :=
  let c : ModifyCall := ⟨pid, optBatch addB, optBatch remB, vhint⟩
  match oracle k with
  | .ok v => (.ok v, [.modify c], k + 1)
  | .err msg =>
    if isVersionConflict msg then
      let freshVer := pyNatOr (refetch k) vhint
      let c2 : ModifyCall := ⟨pid, optBatch addB, optBatch remB, freshVer⟩
      match oracle (k + 1) with
      | .ok v => (.ok v, [.modify c, .refetchDescribe pid, .modify c2], k + 2)
      | .err msg2 =>
        (.error msg2, [.modify c, .refetchDescribe pid, .modify c2], k + 2)
    else (.error msg, [.modify c], k + 1)

/-- The tail of the paired-iteration loop of `apply_delta` once the add
batches are exhausted: the remaining remove batches are submitted one per
call with no `AddEntries` key. -/
def applyRemBatches (oracle : Nat → ModifyOutcome) (refetch : Nat → Option Nat)
    (pid : String) :
    List (List RemEntry) → Nat → Nat → Except String Nat × List ProvCall × Nat
  | [], v, k => (.ok v, [], k)
  | r :: rs, v, k =>
    match pmodify oracle refetch pid none (some r) v k with
    | (.error m, tr, k1) => (.error m, tr, k1)
    | (.ok v1, tr, k1) =>
      match applyRemBatches oracle refetch pid rs v1 k1 with
      | (res, tr2, k2) => (res, tr ++ tr2, k2)

/-- The paired-iteration loop of `apply_delta`
(`while ai < len(add_batches) or ri < len(rem_batches)`): each call
submits the next unconsumed add batch (if any) and the next unconsumed
remove batch (if any) with the current version token; the version
returned by a successful call becomes the token of the next call. -/
def applyBatches (oracle : Nat → ModifyOutcome) (refetch : Nat → Option Nat)
    (pid : String) :
    List (List AddEntry) → List (List RemEntry) → Nat → Nat →
      Except String Nat × List ProvCall × Nat
  | [], remBs, v, k => applyRemBatches oracle refetch pid remBs v k
  | a :: as, remBs, v, k =>
    match pmodify oracle refetch pid (some a) remBs.head? v k with
    | (.error m, tr, k1) => (.error m, tr, k1)
    | (.ok v1, tr, k1) =>
      match applyBatches oracle refetch pid as remBs.tail v1 k1 with
      | (res, tr2, k2) => (res, tr ++ tr2, k2)

/-- Fuel-indexed version of `_chunks(seq, n)`.  The fuel only bounds the
recursion depth; `fuel = seq.length` is always enough when `n ≥ 1`
(Python raises `ValueError` for step `0`, and the source only ever uses
`n = MAX_BATCH = 80`). -/
def chunksF {α : Type} : Nat → Nat → List α → List (List α)
  | _, _, [] => []
  | 0, _, _ :: _ => []
  | fuel + 1, n, a :: rest =>
    ((a :: rest).take n) :: chunksF fuel n ((a :: rest).drop n)

/-- `list(_chunks(seq, n))`: consecutive slices of size `n` (the last one
possibly shorter). -/
def chunks {α : Type} (n : Nat) (l : List α) : List (List α) :=
  chunksF l.length n l

/-- `toAdd`: `sorted(want - have)`. -/
def computeToAdd (want have_ : Finset String) : List String :=
  (want \ have_).sort (· ≤ ·)

/-- `toRemove`: `sorted(have - want)`. -/
def computeToRemove (want have_ : Finset String) : List String :=
  (have_ \ want).sort (· ≤ ·)

/-- The per-list result dictionary returned by `apply_delta`. -/
structure ApplyResult where
  id : String
  from_version : Nat
  to_version : Nat
  added : List String
  removed : List String
  changed : Bool
  note : Option String
  summary : Option String
deriving DecidableEq

/-- A raised error of `apply_delta`: the `RuntimeError` of the capacity
check (carrying the two counts it names and the list id), or a provider
`ClientError` escaping the batch loop. -/
inductive ApplyErr
  | capacity (wantCount maxEntries : Nat) (prefixListId : String)
  | client (msg : String)
deriving DecidableEq

instance {ε α : Type} [DecidableEq ε] [DecidableEq α] :
    DecidableEq (Except ε α) := fun a b =>
  match a, b with
  | .ok x, .ok y =>
    if h : x = y then .isTrue (congrArg _ h)
    else .isFalse (fun hc => h (Except.ok.inj hc))
  | .error x, .error y =>
    if h : x = y then .isTrue (congrArg _ h)
    else .isFalse (fun hc => h (Except.error.inj hc))
  | .ok _, .error _ => .isFalse (fun hc => Except.noConfusion hc)
  | .error _, .ok _ => .isFalse (fun hc => Except.noConfusion hc)

/-- The skip note of the foreign-owner branch. -/
def ownerNote (owner account : String) : String :=
  "OWNER=" ++ owner ++ " != " ++ account ++
    ". Lista AWS-managed; se omite modificación."

/-- The summary string of the no-op branch. -/
def upToDateSummary (pid : String) (n : Nat) : String :=
  pid ++ ": up to date (" ++ toString n ++ " entries)"

/-- The summary string of the mutation branch. -/
def changeSummary (pid : String) (a r v : Nat) : String :=
  pid ++ ": +" ++ toString a ++ "/-" ++ toString r ++ " -> v" ++ toString v

/-- `apply_delta`: read the list state, guard on ownership, check
capacity, compute the sorted delta, short-circuit on no-op, and otherwise
drive the batched update loop.  The located record `pl` and the entry
pages are the provider data consumed by `get_pl_entries`; the result is
paired with the trace of provider calls issued. -/
def apply_delta (oracle : Nat → ModifyOutcome) (refetch : Nat → Option Nat)
    (pl : PLRecord) (pages : List (List EntryRec))
    (prefix_list_id desc : String) (want_list : List String)
    (account_owner : String) : Except ApplyErr ApplyResult × List ProvCall :=
  let current_version := (get_pl_entries pl pages).1
  let have_ := (get_pl_entries pl pages).2.1
  let max_entries := (get_pl_entries pl pages).2.2.1
  let owner := (get_pl_entries pl pages).2.2.2
  let reads := readCalls prefix_list_id pages
  if owner ≠ "" ∧ owner ≠ account_owner then
    (.ok ⟨prefix_list_id, current_version, current_version, [], [], false,
      some (ownerNote owner account_owner), none⟩, reads)
  else
    let want := want_list.toFinset
    if max_entries ≠ 0 ∧ max_entries < want.card then
      (.error (.capacity want.card max_entries prefix_list_id), reads)
    else
      let to_add := computeToAdd want have_
      let to_remove := computeToRemove want have_
      if to_add = [] ∧ to_remove = [] then
        (.ok ⟨prefix_list_id, current_version, current_version, [], [], false,
          none, some (upToDateSummary prefix_list_id have_.card)⟩, reads)
      else
        let adds := to_add.map fun c =>
          (⟨c, (pyStrOr desc DESCR_DEFAULT).take PL_DESCR_TRUNC⟩ : AddEntry)
        let rems := to_remove.map fun c => (⟨c⟩ : RemEntry)
        let add_batches := chunks MAX_BATCH adds
        let rem_batches := chunks MAX_BATCH rems
        match applyBatches oracle refetch prefix_list_id add_batches
            rem_batches current_version 0 with
        | (.error m, tr, _) => (.error (.client m), reads ++ tr)
        | (.ok v, tr, _) =>
          (.ok ⟨prefix_list_id, current_version, v, to_add, to_remove,
            decide (to_add ≠ [] ∨ to_remove ≠ []), none,
            some (changeSummary prefix_list_id to_add.length to_remove.length
              v)⟩, reads ++ tr)

/-- The per-target sequencing of `handler` (lines 367 to 373 of the
source): `results` is built by two sequential `apply_delta` calls, one
per configured address family, with no exception handling around either.
`cfg4` / `cfg6` is whether the family is configured (`PL_V4_ID or
PL_V4_NAME`); `r4` / `r6` is the outcome of the corresponding
`apply_delta` call (`Except.error` models a raised exception).  Returned
are the overall outcome (the aggregated `result` list of the summary on
success, the uncaught exception otherwise) and two flags telling whether
the v4 / v6 `apply_delta` call was attempted. -/
def handlerRun (cfg4 cfg6 : Bool) (r4 r6 : Except ApplyErr ApplyResult) :
    Except ApplyErr (List ApplyResult) × Bool × Bool :=
  if cfg4 then
    match r4 with
    | .error e => (.error e, true, false)
    | .ok a =>
      if cfg6 then
        match r6 with
        | .error e => (.error e, true, true)
        | .ok b => (.ok [a, b], true, true)
      else (.ok [a], true, false)
  else
    if cfg6 then
      match r6 with
      | .error e => (.error e, false, true)
      | .ok b => (.ok [b], false, true)
    else (.ok [], false, false)

/-! Concrete fixtures used to instantiate theorems with hypotheses. -/

/-- A provider oracle whose modify calls all succeed with version `0`. -/
def oracle0 : Nat → ModifyOutcome := fun _ => .ok 0

/-- A refetch oracle returning a record with no `Version` field. -/
def refetch0 : Nat → Option Nat := fun _ => none

/-- A located record owned by account `222`. -/
def plForeign : PLRecord :=
  ⟨some "pl-a", none, none, some "222", some 3, none, none, []⟩

/-- A located record with `MaxEntries` = 1, owned by the caller. -/
def plCap : PLRecord :=
  ⟨some "pl-b", none, some 1, some "111", some 2, none, none, []⟩

/-- A located record with no `Version` and no `MaxEntries` field. -/
def plDefaulted : PLRecord :=
  ⟨some "pl-c", none, none, none, none, none, none, []⟩

/-- A conflict-shaped provider error message. -/
def conflictMsg : String :=
  "InvalidParameterValue: prefix list CurrentVersion 3 is stale"

/-- An oracle whose first modify call fails with a version conflict and
whose retry fails with a throttling error. -/
def oracleConflict : Nat → ModifyOutcome := fun n =>
  if n = 0 then .err conflictMsg else .err "RequestLimitExceeded"

/-- A batch of 85 add entries, to exercise the batch-boundary case. -/
def adds85 : List AddEntry :=
  List.replicate 85 ⟨"1.0.0.0/24", "Cloudflare IP"⟩

/-- A located record with the caller as owner, `MaxEntries` = 5 and
version 5. -/
def plNoop : PLRecord :=
  ⟨some "pl-f", none, some 5, some "111", some 5, none, none, []⟩

/-- One entries page holding the single CIDR `1.2.3.0/24`. -/
def pages1 : List (List EntryRec) := [[⟨some "1.2.3.0/24"⟩]]

/-- One entries page holding two CIDRs; the same set as the desired set
of the capacity counterexample. -/
def pagesAB : List (List EntryRec) :=
  [[⟨some "10.0.0.0/8"⟩, ⟨some "192.168.0.0/16"⟩]]

/-! Helper lemmas. -/

/-- A trace consisting only of entry-page reads contains no mutation. -/
theorem modifies_readCalls (pid : String) (pages : List (List EntryRec)) :
    modifies (readCalls pid pages) = [] := by
  unfold readCalls modifies
  generalize List.range (max 1 pages.length) = l
  induction l with
  | nil => rfl
  | cons a t ih => simp only [List.map_cons, List.filter_cons] at ih ⊢; exact ih

/-- Characterization of the merge fold of `_list_all_pls` through the
records matching a given identifier: the output keeps, beyond the records
already accumulated, at most the first still-unseen record carrying that
identifier. -/
theorem foldl_mergeStep_filter (l : List PLRecord) :
    ∀ (seen : List String) (out : List PLRecord) (pid : String),
      ((l.foldl mergeStep (seen, out)).2.filter
          (fun r => pidOf r = some pid))
        = out.filter (fun r => pidOf r = some pid) ++
          (if pid ∈ seen then []
           else (l.filter (fun r => pidOf r = some pid)).take 1) := by
  induction l with
  | nil =>
    intro seen out pid
    simp
  | cons r rest ih =>
    intro seen out pid
    simp only [List.foldl_cons]
    cases hq : pidOf r with
    | none =>
      rw [show mergeStep (seen, out) r = (seen, out) from by
        simp [mergeStep, hq]]
      rw [ih]
      simp [List.filter_cons, hq]
    | some q =>
      by_cases hmem : q ∈ seen
      · rw [show mergeStep (seen, out) r = (seen, out) from by
          simp [mergeStep, hq, hmem]]
        rw [ih]
        by_cases hpq : q = pid
        · subst hpq
          simp [hmem]
        · simp [List.filter_cons, hq, hpq]
      · rw [show mergeStep (seen, out) r = (q :: seen, out ++ [r]) from by
          simp [mergeStep, hq, hmem]]
        rw [ih]
        by_cases hpq : q = pid
        · subst hpq
          simp [List.filter_append, List.filter_cons, hq, hmem]
        · have hqp : ¬pid = q := fun h => hpq h.symm
          simp [List.filter_append, List.filter_cons, hq, hpq,
            List.mem_cons, hqp]

theorem optBatch_none {β : Type} : (optBatch none : Option (List β)) = none :=
  rfl

theorem getElem?_zero_head {α : Type} (l : List α) : l[0]? = l.head? := by
  cases l <;> simp

theorem getElem?_succ_tail {α : Type} (l : List α) (j : Nat) :
    l[j + 1]? = l.tail[j]? := by
  cases l <;> simp

/-- Trace of the remove-only tail of the batch loop when every provider
call succeeds: one modify call per remaining remove batch, chaining the
version returned by each call into the next. -/
theorem applyRemBatches_ok (vers : Nat → Nat) (refetch : Nat → Option Nat)
    (pid : String) :
    ∀ (rs : List (List RemEntry)) (v k : Nat),
      (applyRemBatches (fun n => .ok (vers n)) refetch pid rs v k).2.1.length
          = rs.length ∧
      ∀ j : Nat,
        (applyRemBatches (fun n => .ok (vers n)) refetch pid rs v
            k).2.1[j]?
          = if j < rs.length then
              some (.modify ⟨pid, none, optBatch rs[j]?,
                if j = 0 then v else vers (k + j - 1)⟩)
            else none := by
  intro rs
  induction rs with
  | nil => intro v k; simp [applyRemBatches]
  | cons r rs ih =>
    intro v k
    rcases hrec : applyRemBatches (fun n => .ok (vers n)) refetch pid rs
        (vers k) (k + 1) with ⟨res, tr2, k2⟩
    have ih' := ih (vers k) (k + 1)
    rw [hrec] at ih'
    constructor
    · simp only [applyRemBatches, pmodify, hrec]
      simp [ih'.1]
    · intro j
      cases j with
      | zero =>
        simp only [applyRemBatches, pmodify, hrec]
        simp [getElem?_zero_head, optBatch_none]
      | succ j =>
        simp only [applyRemBatches, pmodify, hrec, List.singleton_append,
          List.getElem?_cons_succ, List.length_cons, optBatch_none,
          ih'.2 j]
        by_cases hj : j < rs.length
        · have hj2 : j + 1 < rs.length + 1 := by omega
          simp only [hj, hj2, if_true]
          cases j with
          | zero => simp
          | succ j =>
            have h1 : k + 1 + (j + 1) - 1 = k + j + 1 := by omega
            have h2 : k + (j + 1 + 1) - 1 = k + j + 1 := by omega
            simp [h1, h2]
        · have hj2 : ¬(j + 1 < rs.length + 1) := by omega
          simp [hj, hj2]

/-- Trace of the paired batch loop when every provider call succeeds: one
modify call per batch index, pairing the next unconsumed add batch with
the next unconsumed remove batch and chaining the returned versions. -/
theorem applyBatches_ok (vers : Nat → Nat) (refetch : Nat → Option Nat)
    (pid : String) :
    ∀ (addBs : List (List AddEntry)) (remBs : List (List RemEntry))
      (v k : Nat),
      (applyBatches (fun n => .ok (vers n)) refetch pid addBs remBs v
          k).2.1.length = max addBs.length remBs.length ∧
      ∀ j : Nat,
        (applyBatches (fun n => .ok (vers n)) refetch pid addBs remBs v
            k).2.1[j]?
          = if j < max addBs.length remBs.length then
              some (.modify ⟨pid, optBatch addBs[j]?, optBatch remBs[j]?,
                if j = 0 then v else vers (k + j - 1)⟩)
            else none := by
  intro addBs
  induction addBs with
  | nil =>
    intro remBs v k
    have h := applyRemBatches_ok vers refetch pid remBs v k
    constructor
    · simp only [applyBatches]
      rw [h.1]
      simp
    · intro j
      simp only [applyBatches]
      rw [h.2 j]
      simp [optBatch_none]
  | cons a as ih =>
    intro remBs v k
    rcases hrec : applyBatches (fun n => .ok (vers n)) refetch pid as
        remBs.tail (vers k) (k + 1) with ⟨res, tr2, k2⟩
    have ih' := ih remBs.tail (vers k) (k + 1)
    rw [hrec] at ih'
    have hmax : max (as.length + 1) remBs.length
        = max as.length remBs.tail.length + 1 := by
      cases remBs with
      | nil => simp
      | cons r rs => simp [Nat.succ_max_succ]
    constructor
    · simp only [applyBatches, pmodify, hrec, List.singleton_append,
        List.length_cons]
      have hlen : tr2.length = max as.length remBs.tail.length := by
        simpa using ih'.1
      rw [hlen, hmax]
    · intro j
      cases j with
      | zero =>
        have h0 : 0 < max (as.length + 1) remBs.length :=
          lt_of_lt_of_le (Nat.succ_pos _) (le_max_left _ _)
        simp only [applyBatches, pmodify, hrec, List.singleton_append,
          List.length_cons]
        simp [getElem?_zero_head, h0]
      | succ j =>
        simp only [applyBatches, pmodify, hrec, List.singleton_append,
          List.length_cons, List.getElem?_cons_succ, ih'.2 j]
        rw [getElem?_succ_tail]
        by_cases hj : j < max as.length remBs.tail.length
        · have hj2 : j + 1 < max (as.length + 1) remBs.length := by
            rw [hmax]; omega
          simp only [hj, hj2, if_true]
          cases j with
          | zero => simp
          | succ j =>
            have h1 : k + 1 + (j + 1) - 1 = k + j + 1 := by omega
            have h2 : k + (j + 1 + 1) - 1 = k + j + 1 := by omega
            simp [h1, h2]
        · have hj2 : ¬(j + 1 < max (as.length + 1) remBs.length) := by
            rw [hmax]; omega
          have ht : remBs.tail.length = remBs.length - 1 :=
            List.length_tail _
          simp [hj, hj2]
          omega

/-- The flattening of `_chunks(seq, n)` restores the sequence
(fuel-indexed version; any fuel at least the length works when
`n ≥ 1`). -/
theorem chunksF_flatten {α : Type} :
    ∀ (fuel n : Nat) (l : List α), 1 ≤ n → l.length ≤ fuel →
      (chunksF fuel n l).flatten = l := by
  intro fuel
  induction fuel with
  | zero =>
    intro n l hn hl
    have : l = [] := List.length_eq_zero.mp (Nat.le_zero.mp hl)
    subst this
    rfl
  | succ fuel ih =>
    intro n l hn hl
    cases l with
    | nil => rfl
    | cons a rest =>
      simp only [chunksF]
      cases n with
      | zero => omega
      | succ m =>
        have hdrop : ((a :: rest).drop (m + 1)).length ≤ fuel := by
          rw [List.length_drop]
          simp only [List.length_cons] at hl ⊢
          omega
        rw [List.flatten_cons, ih (m + 1) _ hn hdrop,
          List.take_append_drop]

/-- Every chunk produced by `_chunks(seq, n)` is non-empty and no longer
than `n` (fuel-indexed version). -/
theorem chunksF_mem {α : Type} :
    ∀ (fuel n : Nat) (l : List α) (b : List α), 1 ≤ n → l.length ≤ fuel →
      b ∈ chunksF fuel n l → b.length ≤ n ∧ b ≠ [] := by
  intro fuel
  induction fuel with
  | zero =>
    intro n l b hn hl hb
    have : l = [] := List.length_eq_zero.mp (Nat.le_zero.mp hl)
    subst this
    simp [chunksF] at hb
  | succ fuel ih =>
    intro n l b hn hl hb
    cases l with
    | nil => simp [chunksF] at hb
    | cons a rest =>
      cases n with
      | zero => omega
      | succ m =>
        simp only [chunksF, List.mem_cons] at hb
        rcases hb with hb | hb
        · subst hb
          refine ⟨by simp, ?_⟩
          simp [List.take_succ_cons]
        · have hdrop : ((a :: rest).drop (m + 1)).length ≤ fuel := by
            rw [List.length_drop]
            simp only [List.length_cons] at hl ⊢
            omega
          exact ih (m + 1) _ b hn hdrop hb

/-- `chunks` of a non-empty list is non-empty. -/
theorem chunks_ne_nil {α : Type} (n : Nat) (l : List α) (h : l ≠ []) :
    chunks n l ≠ [] := by
  cases l with
  | nil => exact absurd rfl h
  | cons a rest =>
    cases n with
    | zero => simp [chunks, chunksF]
    | succ m => simp [chunks, chunksF]

/-! Claim theorems. -/

/-- C1, counterexample: with both targets configured, a raised error on
the IPv4 target makes `handler` propagate the exception: the IPv6 target
is never attempted (third component `false`) and the outcome is the bare
error, not a summary carrying a per-target error indicator. -/
theorem handler_first_target_error_aborts_cex :
    handlerRun true true (.error (.client "boom"))
        (.ok ⟨"pl-6", 1, 1, [], [], false, none, some "s"⟩)
      = (.error (.client "boom"), true, false) := rfl

/-- C1, amended: for every pair of configured targets, a failure (raised
error) while reconciling the first target aborts the whole pass: the
second target is not attempted and no top-level summary is produced (the
error propagates out of `handler`; no per-target error indicator
exists). -/
theorem handler_error_skips_second_target (e : ApplyErr)
    (r6 : Except ApplyErr ApplyResult) :
    handlerRun true true (.error e) r6 = (.error e, true, false) := rfl

/-- C3, counterexample: a `ClientError` raised inside the discovery call
is swallowed by `_describe_managed_pls` and converted into the same value
a successful empty response produces, so the failure is indistinguishable
from no resources being visible. -/
theorem describe_error_swallowed_cex :
    describe_managed_pls (.error ⟨"AccessDenied"⟩)
        = describe_managed_pls (.ok ⟨some [], none⟩) ∧
      plsOf (describe_managed_pls (.error ⟨"AccessDenied"⟩)) = [] :=
  ⟨rfl, rfl⟩

/-- C3, amended: every `ClientError` from either describe call is caught
and converted into an empty resource listing (`{"ManagedPrefixLists": []}`
respectively `{"PrefixLists": []}`), i.e. a result indistinguishable from
no resources being visible; the error is not propagated to the caller
(it can only surface later as the locator's not-found exhaustion
error). -/
theorem describe_client_error_returns_empty (e : ClientErr) :
    describe_managed_pls (.error e) = ⟨some [], none⟩ ∧
    describe_prefix_pls (.error e) = ⟨none, some []⟩ ∧
    plsOf (describe_managed_pls (.error e)) = [] ∧
    plsOf (describe_prefix_pls (.error e)) = [] :=
  ⟨rfl, rfl, rfl, rfl⟩

/-- C7: for every desired set `D` and current set `C`, the computed delta
satisfies `toAdd = D − C` and `toRemove = C − D`, each materialized as a
sorted sequence, hence `toAdd ∩ toRemove = ∅`, `toAdd ∩ C = ∅` and
`toRemove ⊆ C`. -/
theorem delta_minimality (D C : Finset String) :
    (computeToAdd D C).toFinset = D \ C ∧
    (computeToRemove D C).toFinset = C \ D ∧
    List.Sorted (· ≤ ·) (computeToAdd D C) ∧
    List.Sorted (· ≤ ·) (computeToRemove D C) ∧
    (D \ C) ∩ (C \ D) = ∅ ∧
    (D \ C) ∩ C = ∅ ∧
    C \ D ⊆ C := by
  refine ⟨Finset.sort_toFinset _ _, Finset.sort_toFinset _ _,
    Finset.sort_sorted _ _, Finset.sort_sorted _ _, ?_, ?_,
    Finset.sdiff_subset⟩
  · ext x
    simp only [Finset.mem_inter, Finset.mem_sdiff, Finset.not_mem_empty,
      iff_false]
    tauto
  · ext x
    simp only [Finset.mem_inter, Finset.mem_sdiff, Finset.not_mem_empty,
      iff_false]
    tauto

/-- C9: the merged view of the two discovery APIs contains exactly one
record per identifier: for any identifier, the records of the merged list
carrying it are exactly the first record carrying it in the concatenation
of the first API's records with the normalized records of the second API
(first-seen wins, the first API takes precedence, and second-API records
appear in normalized shape); in particular at most one merged record
carries any identifier. -/
theorem discovery_merge_dedup_first_seen (pagesA pagesB : List DescribeResp)
    (pid : String) :
    ((listAllPls pagesA pagesB).filter (fun r => pidOf r = some pid))
        = (((pagesA.map plsOf).flatten ++
            ((pagesB.map plsOf).flatten).map normalizePl).filter
            (fun r => pidOf r = some pid)).take 1 ∧
      ((listAllPls pagesA pagesB).filter
        (fun r => pidOf r = some pid)).length ≤ 1 := by
  have h : listAllPls pagesA pagesB =
      (((pagesA.map plsOf).flatten ++
        ((pagesB.map plsOf).flatten).map normalizePl).foldl mergeStep
        ([], [])).2 := by
    simp [listAllPls, List.foldl_append]
  have h2 : ((listAllPls pagesA pagesB).filter
      (fun r => pidOf r = some pid))
        = (((pagesA.map plsOf).flatten ++
            ((pagesB.map plsOf).flatten).map normalizePl).filter
            (fun r => pidOf r = some pid)).take 1 := by
    rw [h, foldl_mergeStep_filter]
    simp
  refine ⟨h2, ?_⟩
  rw [h2]
  simp

/-- C2: for every resource whose owner identity is present and differs
from the caller account, `apply_delta` returns a `changed=false` result
carrying the skip note, its trace is exactly the reads already performed
for the owner check (`readCalls`), and that trace holds no mutation
call. -/
theorem owner_guard_skips_foreign_list
    (oracle : Nat → ModifyOutcome) (refetch : Nat → Option Nat)
    (pl : PLRecord) (pages : List (List EntryRec))
    (pid desc : String) (want_list : List String) (acct : String)
    (h1 : (get_pl_entries pl pages).2.2.2 ≠ "")
    (h2 : (get_pl_entries pl pages).2.2.2 ≠ acct) :
    apply_delta oracle refetch pl pages pid desc want_list acct =
      (.ok ⟨pid, (get_pl_entries pl pages).1, (get_pl_entries pl pages).1,
        [], [], false,
        some (ownerNote (get_pl_entries pl pages).2.2.2 acct), none⟩,
       readCalls pid pages) ∧
    modifies (apply_delta oracle refetch pl pages pid desc want_list
      acct).2 = [] := by
  have heq : apply_delta oracle refetch pl pages pid desc want_list acct =
      (.ok ⟨pid, (get_pl_entries pl pages).1, (get_pl_entries pl pages).1,
        [], [], false,
        some (ownerNote (get_pl_entries pl pages).2.2.2 acct), none⟩,
       readCalls pid pages) := by
    simp only [apply_delta]
    rw [if_pos ⟨h1, h2⟩]
  exact ⟨heq, by rw [heq]; exact modifies_readCalls pid pages⟩

/-- C2, witness: a concrete foreign-owner resource is skipped. -/
theorem owner_guard_skips_foreign_list_witness :
    ((get_pl_entries plForeign []).2.2.2 ≠ "" ∧
      (get_pl_entries plForeign []).2.2.2 ≠ "111") ∧
    (apply_delta oracle0 refetch0 plForeign [] "pl-a" "d" ["1.2.3.0/24"]
        "111" =
      (.ok ⟨"pl-a", (get_pl_entries plForeign []).1,
        (get_pl_entries plForeign []).1, [], [], false,
        some (ownerNote (get_pl_entries plForeign []).2.2.2 "111"), none⟩,
       readCalls "pl-a" []) ∧
     modifies (apply_delta oracle0 refetch0 plForeign [] "pl-a" "d"
       ["1.2.3.0/24"] "111").2 = []) :=
  ⟨⟨by decide, by decide⟩,
    owner_guard_skips_foreign_list oracle0 refetch0 plForeign [] "pl-a" "d"
      ["1.2.3.0/24"] "111" (by decide) (by decide)⟩

/-- C5: whenever the owner check passes, `maxEntries` is positive and the
desired set is larger than `maxEntries`, `apply_delta` fails with the
capacity error naming the two counts and issues no mutation call. -/
theorem capacity_exceeded_no_mutation
    (oracle : Nat → ModifyOutcome) (refetch : Nat → Option Nat)
    (pl : PLRecord) (pages : List (List EntryRec))
    (pid desc : String) (want_list : List String) (acct : String)
    (howner : (get_pl_entries pl pages).2.2.2 = "" ∨
      (get_pl_entries pl pages).2.2.2 = acct)
    (hm : (get_pl_entries pl pages).2.2.1 ≠ 0)
    (hc : (get_pl_entries pl pages).2.2.1 < want_list.toFinset.card) :
    apply_delta oracle refetch pl pages pid desc want_list acct =
      (.error (.capacity want_list.toFinset.card
        (get_pl_entries pl pages).2.2.1 pid), readCalls pid pages) ∧
    modifies (apply_delta oracle refetch pl pages pid desc want_list
      acct).2 = [] := by
  have hno : ¬((get_pl_entries pl pages).2.2.2 ≠ "" ∧
      (get_pl_entries pl pages).2.2.2 ≠ acct) := by
    rcases howner with h | h <;> simp [h]
  have heq : apply_delta oracle refetch pl pages pid desc want_list acct =
      (.error (.capacity want_list.toFinset.card
        (get_pl_entries pl pages).2.2.1 pid), readCalls pid pages) := by
    simp only [apply_delta]
    rw [if_neg hno, if_pos ⟨hm, hc⟩]
  exact ⟨heq, by rw [heq]; exact modifies_readCalls pid pages⟩

/-- C5, witness: two desired entries against a capacity of one fail with
the capacity error and no mutation. -/
theorem capacity_exceeded_no_mutation_witness :
    (((get_pl_entries plCap []).2.2.2 = "" ∨
        (get_pl_entries plCap []).2.2.2 = "111") ∧
      (get_pl_entries plCap []).2.2.1 ≠ 0 ∧
      (get_pl_entries plCap []).2.2.1 <
        (["10.0.0.0/8", "192.168.0.0/16"] : List String).toFinset.card) ∧
    (apply_delta oracle0 refetch0 plCap [] "pl-b" "d"
        ["10.0.0.0/8", "192.168.0.0/16"] "111" =
      (.error (.capacity
        (["10.0.0.0/8", "192.168.0.0/16"] : List String).toFinset.card
        (get_pl_entries plCap []).2.2.1 "pl-b"), readCalls "pl-b" []) ∧
     modifies (apply_delta oracle0 refetch0 plCap [] "pl-b" "d"
       ["10.0.0.0/8", "192.168.0.0/16"] "111").2 = []) :=
  ⟨⟨by decide, by decide, by decide⟩,
    capacity_exceeded_no_mutation oracle0 refetch0 plCap [] "pl-b" "d"
      ["10.0.0.0/8", "192.168.0.0/16"] "111" (by decide) (by decide)
      (by decide)⟩

/-- C4: when a modify call is rejected with a version-conflict error, the
engine refetches the version exactly once and retries the same batch with
the refreshed token, issuing exactly two modify calls and one refetch;
the outcome of the single retry (success or failure) is the outcome of
the whole step, so a second failure propagates with no third attempt, and
a failure inside the batch loop aborts the loop with no further calls. -/
theorem version_conflict_single_retry
    (oracle : Nat → ModifyOutcome) (refetch : Nat → Option Nat)
    (pid : String) (addB : Option (List AddEntry))
    (remB : Option (List RemEntry)) (vhint k : Nat) (msg : String)
    (hfail : oracle k = .err msg)
    (hconf : isVersionConflict msg = true) :
    pmodify oracle refetch pid addB remB vhint k =
      ((match oracle (k + 1) with
        | .ok v => Except.ok v
        | .err m2 => Except.error m2),
       [.modify ⟨pid, optBatch addB, optBatch remB, vhint⟩,
        .refetchDescribe pid,
        .modify ⟨pid, optBatch addB, optBatch remB,
          pyNatOr (refetch k) vhint⟩], k + 2) ∧
    (∀ (m2 : String) (a : List AddEntry) (as : List (List AddEntry))
        (rembs : List (List RemEntry)),
      oracle (k + 1) = .err m2 →
      applyBatches oracle refetch pid (a :: as) rembs vhint k =
        (.error m2,
         [.modify ⟨pid, optBatch (some a), optBatch rembs.head?, vhint⟩,
          .refetchDescribe pid,
          .modify ⟨pid, optBatch (some a), optBatch rembs.head?,
            pyNatOr (refetch k) vhint⟩], k + 2)) := by
  constructor
  · cases h2 : oracle (k + 1) with
    | ok v => simp [pmodify, hfail, hconf, h2]
    | err m2 => simp [pmodify, hfail, hconf, h2]
  · intro m2 a as rembs h2
    simp [applyBatches, pmodify, hfail, hconf, h2]

/-- C4, witness: a concrete conflict on the first call followed by a
failing retry yields exactly two modify calls, one refetch and the
propagated second error. -/
theorem version_conflict_single_retry_witness :
    (oracleConflict 0 = .err conflictMsg ∧
      isVersionConflict conflictMsg = true) ∧
    (pmodify oracleConflict refetch0 "pl-d"
        (some [⟨"1.2.3.0/24", "d"⟩]) none 3 0 =
      ((match oracleConflict (0 + 1) with
        | .ok v => Except.ok v
        | .err m2 => Except.error m2),
       [.modify ⟨"pl-d", optBatch (some [⟨"1.2.3.0/24", "d"⟩]),
          optBatch none, 3⟩,
        .refetchDescribe "pl-d",
        .modify ⟨"pl-d", optBatch (some [⟨"1.2.3.0/24", "d"⟩]),
          optBatch none, pyNatOr (refetch0 0) 3⟩], 0 + 2) ∧
     ∀ (m2 : String) (a : List AddEntry) (as : List (List AddEntry))
         (rembs : List (List RemEntry)),
       oracleConflict (0 + 1) = .err m2 →
       applyBatches oracleConflict refetch0 "pl-d" (a :: as) rembs 3 0 =
         (.error m2,
          [.modify ⟨"pl-d", optBatch (some a), optBatch rembs.head?, 3⟩,
           .refetchDescribe "pl-d",
           .modify ⟨"pl-d", optBatch (some a), optBatch rembs.head?,
             pyNatOr (refetch0 0) 3⟩], 0 + 2)) :=
  ⟨⟨rfl, by decide⟩,
    version_conflict_single_retry oracleConflict refetch0 "pl-d"
      (some [⟨"1.2.3.0/24", "d"⟩]) none 3 0 conflictMsg rfl (by decide)⟩

/-- C10: a located record with no (or null) `Version` field is read as
version `1`; a record with no, null or zero `MaxEntries` field is read as
`maxEntries = 0`, and then the capacity check is skipped entirely: no run
of `apply_delta` can fail with a capacity error, whatever the size of the
desired set. -/
theorem defaults_version_and_max_entries
    (pl : PLRecord) (pages : List (List EntryRec))
    (hv : pl.version = none)
    (hm : pl.maxEntries = none ∨ pl.maxEntries = some 0) :
    (get_pl_entries pl pages).1 = 1 ∧
    (get_pl_entries pl pages).2.2.1 = 0 ∧
    ∀ (oracle : Nat → ModifyOutcome) (refetch : Nat → Option Nat)
      (pid desc : String) (want_list : List String) (acct : String)
      (a b : Nat) (i : String),
      (apply_delta oracle refetch pl pages pid desc want_list acct).1 ≠
        .error (.capacity a b i) := by
  have h1 : (get_pl_entries pl pages).1 = 1 := by
    simp [get_pl_entries, pyNatOr, hv]
  have h2 : (get_pl_entries pl pages).2.2.1 = 0 := by
    rcases hm with h | h <;> simp [get_pl_entries, pyNatOr, h]
  refine ⟨h1, h2, ?_⟩
  intro oracle refetch pid desc want_list acct a b i
  simp only [apply_delta]
  split
  · simp
  · split
    · rename_i h
      rw [h2] at h
      exact absurd rfl h.1
    · split
      · simp
      · split
        · simp
        · simp

/-- C10, witness: a record with both fields missing defaults to version 1
and unbounded capacity. -/
theorem defaults_version_and_max_entries_witness :
    (plDefaulted.version = none ∧
      (plDefaulted.maxEntries = none ∨ plDefaulted.maxEntries = some 0)) ∧
    ((get_pl_entries plDefaulted []).1 = 1 ∧
      (get_pl_entries plDefaulted []).2.2.1 = 0 ∧
      ∀ (oracle : Nat → ModifyOutcome) (refetch : Nat → Option Nat)
        (pid desc : String) (want_list : List String) (acct : String)
        (a b : Nat) (i : String),
        (apply_delta oracle refetch plDefaulted [] pid desc want_list
          acct).1 ≠ .error (.capacity a b i)) :=
  ⟨⟨rfl, Or.inl rfl⟩,
    defaults_version_and_max_entries plDefaulted [] rfl (Or.inl rfl)⟩

/-- C6: for every non-empty delta, the add list and remove list are split
independently into consecutive batches of at most `MAX_BATCH = 80`
entries (whose concatenation restores the lists); when every call
succeeds, at least one call is issued, there is exactly one update call
per batch index, call `j` submits the `j`-th add batch (if any) and the
`j`-th remove batch (if any), the first call carries the starting version
token and call `j + 1` carries the version returned by call `j`. -/
theorem batching_pairs_and_chains_versions
    (vers : Nat → Nat) (refetch : Nat → Option Nat) (pid : String)
    (adds : List AddEntry) (rems : List RemEntry) (v0 : Nat)
    (hne : adds ≠ [] ∨ rems ≠ []) :
    ((chunks MAX_BATCH adds).flatten = adds ∧
      (chunks MAX_BATCH rems).flatten = rems) ∧
    (∀ b ∈ chunks MAX_BATCH adds, b.length ≤ MAX_BATCH ∧ b ≠ []) ∧
    (∀ b ∈ chunks MAX_BATCH rems, b.length ≤ MAX_BATCH ∧ b ≠ []) ∧
    0 < (applyBatches (fun n => .ok (vers n)) refetch pid
        (chunks MAX_BATCH adds) (chunks MAX_BATCH rems) v0 0).2.1.length ∧
    (applyBatches (fun n => .ok (vers n)) refetch pid
        (chunks MAX_BATCH adds) (chunks MAX_BATCH rems) v0 0).2.1.length
      = max (chunks MAX_BATCH adds).length (chunks MAX_BATCH rems).length ∧
    ∀ j : Nat,
      (applyBatches (fun n => .ok (vers n)) refetch pid
          (chunks MAX_BATCH adds) (chunks MAX_BATCH rems) v0 0).2.1[j]?
        = if j < max (chunks MAX_BATCH adds).length
              (chunks MAX_BATCH rems).length then
            some (.modify ⟨pid, optBatch (chunks MAX_BATCH adds)[j]?,
              optBatch (chunks MAX_BATCH rems)[j]?,
              if j = 0 then v0 else vers (j - 1)⟩)
          else none := by
  have hb := applyBatches_ok vers refetch pid (chunks MAX_BATCH adds)
    (chunks MAX_BATCH rems) v0 0
  have hpos : 0 < max (chunks MAX_BATCH adds).length
      (chunks MAX_BATCH rems).length := by
    rcases hne with h | h
    · have h1 : 0 < (chunks MAX_BATCH adds).length :=
        List.length_pos.mpr (chunks_ne_nil MAX_BATCH adds h)
      omega
    · have h1 : 0 < (chunks MAX_BATCH rems).length :=
        List.length_pos.mpr (chunks_ne_nil MAX_BATCH rems h)
      omega
  refine ⟨⟨?_, ?_⟩, ?_, ?_, ?_, hb.1, ?_⟩
  · exact chunksF_flatten adds.length MAX_BATCH adds (by decide) le_rfl
  · exact chunksF_flatten rems.length MAX_BATCH rems (by decide) le_rfl
  · intro b hbm
    exact chunksF_mem adds.length MAX_BATCH adds b (by decide) le_rfl hbm
  · intro b hbm
    exact chunksF_mem rems.length MAX_BATCH rems b (by decide) le_rfl hbm
  · rw [hb.1]
    exact hpos
  · intro j
    rw [hb.2 j]
    simp only [Nat.zero_add]

/-- C6, witness: the batching theorem instantiated on 85 add entries and
no remove entries. -/
theorem batching_pairs_and_chains_versions_witness :
    (adds85 ≠ [] ∨ ([] : List RemEntry) ≠ []) ∧
    (((chunks MAX_BATCH adds85).flatten = adds85 ∧
       (chunks MAX_BATCH ([] : List RemEntry)).flatten = []) ∧
     (∀ b ∈ chunks MAX_BATCH adds85, b.length ≤ MAX_BATCH ∧ b ≠ []) ∧
     (∀ b ∈ chunks MAX_BATCH ([] : List RemEntry),
        b.length ≤ MAX_BATCH ∧ b ≠ []) ∧
     0 < (applyBatches (fun n => .ok (n + 8)) refetch0 "pl-e"
        (chunks MAX_BATCH adds85) (chunks MAX_BATCH ([] : List RemEntry)) 7
        0).2.1.length ∧
     (applyBatches (fun n => .ok (n + 8)) refetch0 "pl-e"
        (chunks MAX_BATCH adds85) (chunks MAX_BATCH ([] : List RemEntry)) 7
        0).2.1.length
       = max (chunks MAX_BATCH adds85).length
           (chunks MAX_BATCH ([] : List RemEntry)).length ∧
     ∀ j : Nat,
       (applyBatches (fun n => .ok (n + 8)) refetch0 "pl-e"
          (chunks MAX_BATCH adds85) (chunks MAX_BATCH ([] : List RemEntry))
          7 0).2.1[j]?
         = if j < max (chunks MAX_BATCH adds85).length
               (chunks MAX_BATCH ([] : List RemEntry)).length then
             some (.modify ⟨"pl-e", optBatch (chunks MAX_BATCH adds85)[j]?,
               optBatch (chunks MAX_BATCH ([] : List RemEntry))[j]?,
               if j = 0 then 7 else j - 1 + 8⟩)
           else none) :=
  ⟨Or.inl (by decide),
    batching_pairs_and_chains_versions (fun n => n + 8) refetch0 "pl-e"
      adds85 [] 7 (Or.inl (by decide))⟩

/-- C8, counterexample: a desired set equal to the current set does not
always produce a `changed=false` result: when the (degenerate) current
set is already larger than a positive `MaxEntries`, the capacity check
fires first and `apply_delta` raises instead of returning an unchanged
result. -/
theorem idempotence_capacity_cex :
    (["10.0.0.0/8", "192.168.0.0/16"] : List String).toFinset
        = collectCidrs pagesAB ∧
    (apply_delta oracle0 refetch0 plCap pagesAB "pl-b" "d"
        ["10.0.0.0/8", "192.168.0.0/16"] "111").1
      = .error (.capacity 2 1 "pl-b") := by
  constructor
  · decide
  · decide

/-- C8, amended: for every desired set equal to the resource's current
set, provided the set does not exceed a positive `MaxEntries` bound (a
provider invariant for real resources), the computed `toAdd` and
`toRemove` are both empty, no update call is issued, and the returned
result has `changed=false` with equal starting and ending versions, so a
second reconciliation with an unchanged desired set reports
`changed=false`. -/
theorem idempotent_noop_when_desired_equals_current
    (oracle : Nat → ModifyOutcome) (refetch : Nat → Option Nat)
    (pl : PLRecord) (pages : List (List EntryRec))
    (pid desc : String) (want_list : List String) (acct : String)
    (heq : want_list.toFinset = collectCidrs pages)
    (hcap : (get_pl_entries pl pages).2.2.1 = 0 ∨
      want_list.toFinset.card ≤ (get_pl_entries pl pages).2.2.1) :
    computeToAdd want_list.toFinset (collectCidrs pages) = [] ∧
    computeToRemove want_list.toFinset (collectCidrs pages) = [] ∧
    (∃ res : ApplyResult,
      apply_delta oracle refetch pl pages pid desc want_list acct
          = (.ok res, readCalls pid pages) ∧
        res.changed = false ∧ res.from_version = res.to_version ∧
        res.added = [] ∧ res.removed = []) ∧
    modifies (apply_delta oracle refetch pl pages pid desc want_list
      acct).2 = [] := by
  have hGet : (get_pl_entries pl pages).2.1 = collectCidrs pages := rfl
  have hadd : computeToAdd want_list.toFinset (collectCidrs pages) = [] := by
    rw [heq]
    simp [computeToAdd, Finset.sdiff_self, Finset.sort_empty]
  have hrem : computeToRemove want_list.toFinset (collectCidrs pages)
      = [] := by
    rw [heq]
    simp [computeToRemove, Finset.sdiff_self, Finset.sort_empty]
  refine ⟨hadd, hrem, ?_⟩
  by_cases how : (get_pl_entries pl pages).2.2.2 ≠ "" ∧
      (get_pl_entries pl pages).2.2.2 ≠ acct
  · have heqd : apply_delta oracle refetch pl pages pid desc want_list acct
        = (.ok ⟨pid, (get_pl_entries pl pages).1,
            (get_pl_entries pl pages).1, [], [], false,
            some (ownerNote (get_pl_entries pl pages).2.2.2 acct), none⟩,
          readCalls pid pages) := by
      simp only [apply_delta]
      rw [if_pos how]
    exact ⟨⟨_, heqd, rfl, rfl, rfl, rfl⟩,
      by rw [heqd]; exact modifies_readCalls pid pages⟩
  · have hno2 : ¬((get_pl_entries pl pages).2.2.1 ≠ 0 ∧
        (get_pl_entries pl pages).2.2.1 < want_list.toFinset.card) := by
      rcases hcap with h | h
      · intro hx
        exact hx.1 h
      · intro hx
        exact absurd hx.2 (Nat.not_lt.mpr h)
    have heqd : apply_delta oracle refetch pl pages pid desc want_list acct
        = (.ok ⟨pid, (get_pl_entries pl pages).1,
            (get_pl_entries pl pages).1, [], [], false, none,
            some (upToDateSummary pid
              (get_pl_entries pl pages).2.1.card)⟩,
          readCalls pid pages) := by
      simp only [apply_delta]
      rw [if_neg how, if_neg hno2,
        if_pos ⟨by rw [hGet]; exact hadd, by rw [hGet]; exact hrem⟩]
    exact ⟨⟨_, heqd, rfl, rfl, rfl, rfl⟩,
      by rw [heqd]; exact modifies_readCalls pid pages⟩

/-- C8, witness: a desired set identical to the (capacity-respecting)
current set yields the unchanged result. -/
theorem idempotent_noop_witness :
    ((["1.2.3.0/24"] : List String).toFinset = collectCidrs pages1 ∧
      ((get_pl_entries plNoop pages1).2.2.1 = 0 ∨
        (["1.2.3.0/24"] : List String).toFinset.card ≤
          (get_pl_entries plNoop pages1).2.2.1)) ∧
    (computeToAdd (["1.2.3.0/24"] : List String).toFinset
        (collectCidrs pages1) = [] ∧
     computeToRemove (["1.2.3.0/24"] : List String).toFinset
        (collectCidrs pages1) = [] ∧
     (∃ res : ApplyResult,
       apply_delta oracle0 refetch0 plNoop pages1 "pl-f" "d"
           ["1.2.3.0/24"] "111"
           = (.ok res, readCalls "pl-f" pages1) ∧
         res.changed = false ∧ res.from_version = res.to_version ∧
         res.added = [] ∧ res.removed = []) ∧
     modifies (apply_delta oracle0 refetch0 plNoop pages1 "pl-f" "d"
       ["1.2.3.0/24"] "111").2 = []) :=
  ⟨⟨by decide, Or.inr (by decide)⟩,
    idempotent_noop_when_desired_equals_current oracle0 refetch0 plNoop
      pages1 "pl-f" "d" ["1.2.3.0/24"] "111" (by decide)
      (Or.inr (by decide))⟩

/-- With 85 entries to add, `MAX_BATCH = 80` and no removals, exactly two
update calls are issued, of sizes 80 and 5, in that order, with the
version token returned by call 1 used as the token of call 2. -/
theorem batch85_two_calls_sizes :
    (chunks MAX_BATCH adds85).map List.length = [80, 5] ∧
    (applyBatches (fun n => .ok (n + 8)) refetch0 "pl-e"
        (chunks MAX_BATCH adds85) [] 7 0).2.1
      = [.modify ⟨"pl-e",
          some (List.replicate 80 ⟨"1.0.0.0/24", "Cloudflare IP"⟩), none,
          7⟩,
         .modify ⟨"pl-e",
          some (List.replicate 5 ⟨"1.0.0.0/24", "Cloudflare IP"⟩), none,
          8⟩] := by
  constructor
  · decide
  · decide

end CfLambda
